import Mathlib

/-!
Shallow embedding of `src/rules/namespace.js` from eslint-plugin-import.

The rule validates that every dereference of an imported namespace binding
(wildcard import or nested re-export) refers to a name that exists in the
target module's export surface: through member chains, destructuring
patterns and JSX member tags.  External collaborators (the `ExportMap`
produced by module resolution, and `declaredScope` from scope analysis)
are modelled as data respectively as an oracle function.
-/

namespace NamespaceRule

/-- The external `ExportMap` (class `Exports` in the source), restricted to
the interface the rule consumes: `errors`, `size`, `has(name)` and
`get(name)`.  An entry `(name, none)` models a name whose `get` yields
`null` (ignored/ambiguous); `(name, some ns?)` models an export descriptor
whose `namespace` field is `ns?` (`none` when the exported value is not
itself a namespace). -/
inductive ExportMap : Type where
  | mk (errors : List String) (entries : List (String × Option (Option ExportMap))) : ExportMap

/-- The `errors` field of an `ExportMap`. -/
def ExportMap.errors : ExportMap → List String
  | .mk e _ => e

/-- The list of `(name, descriptor)` entries backing the map. -/
def ExportMap.entries : ExportMap → List (String × Option (Option ExportMap))
  | .mk _ ent => ent

/-- The `imports.size` query: the number of exported names. -/
def ExportMap.size (m : ExportMap) : Nat := m.entries.length

/-- The `namespace.has(name)` query: whether the name is exported at all
(true even when its resolved value is `null`). -/
def ExportMap.has (m : ExportMap) (name : String) : Bool :=
  (m.entries.lookup name).isSome

/-- The `namespace.get(name)` query: `none` models the JS
`null`/`undefined` result (name absent, or present but ignored/ambiguous);
`some ns?` models an export descriptor whose `namespace` field is `ns?`. -/
def ExportMap.get (m : ExportMap) (name : String) : Option (Option ExportMap) :=
  (m.entries.lookup name).join

/-- The diagnostics emitted through `context.report`, one constructor per
report site of the rule, carrying the data the site interpolates. -/
inductive Diagnostic : Type where
  | resolveError (err : String)
  | emptyNamespace (atLocal : String) (source : String)
  | assignment (objName : String)
  | computedRef (objName : Option String)
  | notFound (last : String) (namepath : List String)
  | onlyDestructureTopLevel
  deriving DecidableEq

/-- Function `makeMessage` from the source: renders the not-found message,
saying `deeply` exactly when the accumulated namepath has length greater
than 1. -/
def makeMessage (last : String) (namepath : List String) : String :=
  "\x27" ++ last ++ "\x27 not found in "
    ++ (if namepath.length > 1 then "deeply " else "")
    ++ "imported namespace \x27" ++ String.intercalate "." namepath ++ "\x27."

/-- The message string each diagnostic renders to (the template literals at
the corresponding `context.report` sites; a `computedRef` whose object is
not an identifier interpolates the JS `undefined`). -/
def Diagnostic.message : Diagnostic → String
  | .resolveError e => e
  | .emptyNamespace _ src => "No exported names found in module \x27" ++ src ++ "\x27."
  | .assignment obj => "Assignment to member of namespace \x27" ++ obj ++ "\x27."
  | .computedRef obj =>
      "Unable to validate computed reference to imported namespace \x27"
        ++ (match obj with | some n => n | none => "undefined") ++ "\x27."
  | .notFound last path => makeMessage last path
  | .onlyDestructureTopLevel => "Only destructure top-level names."

/-- Is this diagnostic one of the not-found reports built by `makeMessage`? -/
def Diagnostic.isNotFound : Diagnostic → Bool
  | .notFound _ _ => true
  | _ => false

/-- The per-file Binding Table `namespaces : Map<string, ExportMap>`. -/
def NsMap : Type := List (String × ExportMap)

/-- The `namespaces.set(key, value)` update on the Binding Table. -/
def nsSet : NsMap → String → ExportMap → NsMap
  | [], k, v => [(k, v)]
  | (k', v') :: rest, k, v =>
      if k' = k then (k, v) :: rest else (k', v') :: nsSet rest k v

/-- The `namespaces.get(key)` lookup (`namespaces.has(key)` is its
`Option.isSome`). -/
def nsLookup (m : NsMap) (k : String) : Option ExportMap :=
  match m with
  | [] => none
  | (k', v') :: rest => if k' = k then some v' else nsLookup rest k

/-- An import specifier of an `ImportDeclaration`:
`ImportNamespaceSpecifier`, `ImportDefaultSpecifier` or `ImportSpecifier`
(the latter carrying its imported name). -/
inductive Specifier : Type where
  | namespaceSpec (localName : String)
  | defaultSpec (localName : String)
  | namedSpec (localName : String) (importedName : String)

/-- The name of the local binding a specifier introduces. -/
def Specifier.localName : Specifier → String
  | .namespaceSpec l => l
  | .defaultSpec l => l
  | .namedSpec l _ => l

/-- An `ImportDeclaration`: module specifier string plus specifiers. -/
structure ImportDecl : Type where
  source : String
  specifiers : List Specifier

/-- A top-level statement, as far as `processBodyStatement` inspects it. -/
inductive Statement : Type where
  | importDecl (d : ImportDecl)
  | other

/-- The `switch (specifier.type)` body inside `processBodyStatement`,
threading the Binding Table and the emitted diagnostics.  A default
specifier looks up the literal name `default`; a binding is registered only
when the looked-up descriptor exists and carries a namespace. -/
def processSpecifier (imports : ExportMap) (source : String)
    (acc : NsMap × List Diagnostic) (specifier : Specifier) : NsMap × List Diagnostic :=
  match specifier with
  | .namespaceSpec loc =>
      let diags := if imports.size = 0
        then acc.2 ++ [Diagnostic.emptyNamespace loc source]
        else acc.2
      (nsSet acc.1 loc imports, diags)
  | .defaultSpec loc =>
      match imports.get "default" with
      | some (some meta) => (nsSet acc.1 loc meta, acc.2)
      | _ => acc
  | .namedSpec loc imported =>
      match imports.get imported with
      | some (some meta) => (nsSet acc.1 loc meta, acc.2)
      | _ => acc

/-- Function `processBodyStatement(context, namespaces, declaration)`: skip
non-imports and empty import lists; skip unresolvable modules; if the
resolved map has errors, forward them (`imports.reportErrors`) and register
nothing; otherwise process each specifier in order. -/
def processBodyStatement (resolve : String → Option ExportMap)
    (namespaces : NsMap) (declaration : Statement) : NsMap × List Diagnostic :=
  match declaration with
  | .other => (namespaces, [])
  | .importDecl d =>
      if d.specifiers.length = 0 then (namespaces, [])
      else
        match resolve d.source with
        | none => (namespaces, [])
        | some imports =>
            if imports.errors.length > 0 then
              (namespaces, imports.errors.map Diagnostic.resolveError)
            else
              d.specifiers.foldl (processSpecifier imports d.source) (namespaces, [])

/-- The `Program({ body })` callback: fold `processBodyStatement` over the
top-level statements, populating the Binding Table before any access is
validated (hoisting). -/
def Program (resolve : String → Option ExportMap) (body : List Statement) :
    NsMap × List Diagnostic :=
  body.foldl
    (fun acc st =>
      let r := processBodyStatement resolve acc.1 st
      (r.1, acc.2 ++ r.2))
    ([], [])

/-- One hop of a member-access chain: `.name` (non-computed) or `[expr]`
(computed). -/
inductive Access : Type where
  | prop (name : String)
  | computed
  deriving DecidableEq

/-- The innermost `MemberExpression` of a chain whose object is an
identifier: the root identifier's name, the successive accesses walking
outward through `dereference.parent`, and whether the innermost node's
parent is an `AssignmentExpression` having it as left-hand side. -/
structure MemberChain : Type where
  root : String
  accesses : List Access
  parentIsAssignLHS : Bool

/-- The `while` loop of the `MemberExpression` callback.  `isFirst` records
whether the current dereference is still the innermost node, whose object
is the root identifier: the computed-reference message interpolates
`dereference.object.name`, which is the root name only there and the JS
`undefined` (modelled `none`) on deeper nodes. -/
def walkLoop (allowComputed : Bool) (isFirst : Bool) (rootName : String) :
    Option ExportMap → List String → List Access → List Diagnostic
  | some ns, namepath, a :: rest =>
      match a with
      | .computed =>
          if allowComputed then []
          else [Diagnostic.computedRef (if isFirst then some rootName else none)]
      | .prop name =>
          if ns.has name then
            match ns.get name with
            | none => []
            | some nested => walkLoop allowComputed false rootName nested (namepath ++ [name]) rest
          else
            [Diagnostic.notFound name namepath]
  | _, _, _ => []

/-- The `MemberExpression(dereference)` callback, for the innermost node of
a chain (outer nodes of the same chain have a `MemberExpression` object and
return immediately): guard on a Binding Table entry and the module-scope
check, report assignment to a namespace member, then walk the chain. -/
def MemberExpression (allowComputed : Bool) (namespaces : NsMap)
    (declaredScope : String → String) (dereference : MemberChain) : List Diagnostic :=
  match nsLookup namespaces dereference.root with
  | none => []
  | some ns =>
      if declaredScope dereference.root = "module" then
        (if dereference.parentIsAssignLHS
          then [Diagnostic.assignment dereference.root] else [])
          ++ walkLoop allowComputed true dereference.root (some ns)
              [dereference.root] dereference.accesses
      else []

/-- A destructuring key: a plain identifier, or anything else (computed or
literal keys are reported as non-destructurable). -/
inductive PropKey : Type where
  | ident (name : String)
  | nonIdent

mutual

/-- A binding pattern, as far as `testKey` inspects it: an `ObjectPattern`
with its properties, or any other pattern (identifier, array pattern, ...),
which is not validated further. -/
inductive Pattern : Type where
  | objectPattern (properties : List Property) : Pattern
  | otherPattern : Pattern

/-- One property of an `ObjectPattern`: a rest/spread element (or a
property with no key), which imposes no validation, or a keyed property
with its value sub-pattern. -/
inductive Property : Type where
  | rest : Property
  | keyed (key : PropKey) (value : Pattern) : Property

end

mutual

/-- Function `testKey(pattern, namespace, path)` from the `VariableDeclarator`
callback: stop unless the current value is an `ExportMap` and the pattern
is an `ObjectPattern`, else validate every property. -/
def testKey (pattern : Pattern) (ns? : Option ExportMap) (path : List String) :
    List Diagnostic :=
  match ns? with
  | none => []
  | some ns =>
      match pattern with
      | .otherPattern => []
      | .objectPattern props => testProps props ns path

/-- The `for (const property of pattern.properties)` loop of `testKey`:
properties are validated independently, each seeing the same path. -/
def testProps (props : List Property) (ns : ExportMap) (path : List String) :
    List Diagnostic :=
  match props with
  | [] => []
  | p :: rest => testProp p ns path ++ testProps rest ns path

/-- One iteration of the property loop: skip rest elements, report
non-identifier keys, report keys the namespace lacks (then continue with
siblings), and recurse under present keys whose resolved value is not
`null`, extending the path for the recursive call only. -/
def testProp (p : Property) (ns : ExportMap) (path : List String) :
    List Diagnostic :=
  match p with
  | .rest => []
  | .keyed key value =>
      match key with
      | .nonIdent => [Diagnostic.onlyDestructureTopLevel]
      | .ident name =>
          if ns.has name then
            match ns.get name with
            | none => []
            | some nested => testKey value nested (path ++ [name])
          else
            [Diagnostic.notFound name path]

end

/-- The initializer of a `VariableDeclarator`: a plain identifier or any
other expression (which suppresses validation). -/
inductive InitExpr : Type where
  | ident (name : String)
  | otherInit

/-- The `VariableDeclarator({ id, init })` callback: only fires the
destructuring walk when the initializer is a bound identifier that still
denotes the module-level binding. -/
def VariableDeclarator (namespaces : NsMap) (declaredScope : String → String)
    (id : Pattern) (initializer : Option InitExpr) : List Diagnostic :=
  match initializer with
  | none => []
  | some .otherInit => []
  | some (.ident nm) =>
      match nsLookup namespaces nm with
      | none => []
      | some ns =>
          if declaredScope nm = "module" then testKey id (some ns) [nm]
          else []

/-- The `JSXMemberExpression({ object, property })` callback: a single-hop
check with no scope query. -/
def JSXMemberExpression (namespaces : NsMap) (objectName propertyName : String) :
    List Diagnostic :=
  match nsLookup namespaces objectName with
  | none => []
  | some ns =>
      if ns.has propertyName then []
      else [Diagnostic.notFound propertyName [objectName]]

/-- Descending `k` non-computed hops from `start`: `some finish` when every
hop's name resolves to a descriptor carrying a nested namespace. -/
def descendMaps (start : ExportMap) : List String → Option ExportMap
  | [] => some start
  | p :: ps =>
      match start.get p with
      | some (some mid) => descendMaps mid ps
      | _ => none

end NamespaceRule

namespace NamespaceRule

/-- Concrete export map `{ b: <plain value> }`, used by witnesses. -/
def innerMap : ExportMap := .mk [] [("b", some none)]

/-- Concrete export map `{ a: <namespace innerMap>, amb: null }`. -/
def midMap : ExportMap := .mk [] [("a", some (some innerMap)), ("amb", none)]

/-- A Binding Table mapping `ns` to `midMap`, used by witnesses. -/
def rootTable : NsMap := [("ns", midMap)]

/-- A Scope Oracle declaring every name at module scope. -/
def moduleScope : String → String := fun _ => "module"

/-- A Scope Oracle declaring every name at function scope (shadowed). -/
def functionScope : String → String := fun _ => "function"

theorem ExportMap.has_of_get {m : ExportMap} {n : String} {v : Option ExportMap}
    (h : m.get n = some v) : m.has n = true := by
  unfold ExportMap.get at h
  unfold ExportMap.has
  cases hl : m.entries.lookup n with
  | none => rw [hl] at h; simp [Option.join] at h
  | some w => simp

theorem nsLookup_nsSet_self (m : NsMap) (k : String) (v : ExportMap) :
    nsLookup (nsSet m k v) k = some v := by
  induction m with
  | nil => simp [nsSet, nsLookup]
  | cons hd tl ih =>
      obtain ⟨k', v'⟩ := hd
      by_cases hk : k' = k
      · simp [nsSet, nsLookup, hk]
      · simp [nsSet, nsLookup, hk, ih]

theorem walk_notFound (ac : Bool) (root : String) :
    ∀ (seen : List String) (first : Bool) (ns0 nsk : ExportMap)
      (namepath : List String) (missing : String) (rest : List Access),
    descendMaps ns0 seen = some nsk → nsk.has missing = false →
    walkLoop ac first root (some ns0) namepath
        (seen.map Access.prop ++ Access.prop missing :: rest)
      = [Diagnostic.notFound missing (namepath ++ seen)] := by
  intro seen
  induction seen with
  | nil =>
      intro first ns0 nsk namepath missing rest hd hh
      simp only [descendMaps, Option.some.injEq] at hd
      subst hd
      simp [walkLoop, hh]
  | cons p ps ih =>
      intro first ns0 nsk namepath missing rest hd hh
      unfold descendMaps at hd
      cases hg : ns0.get p with
      | none => rw [hg] at hd; simp at hd
      | some o =>
          cases o with
          | none => rw [hg] at hd; simp at hd
          | some mid =>
              rw [hg] at hd
              have hhas := ExportMap.has_of_get hg
              simp only [List.map_cons, List.cons_append]
              rw [walkLoop]
              simp only [hhas, if_true, hg]
              rw [ih false mid nsk (namepath ++ [p]) missing rest hd hh]
              simp

theorem walk_computed (ac : Bool) (root : String) :
    ∀ (seen : List String) (first : Bool) (ns0 nsk : ExportMap)
      (namepath : List String) (rest : List Access),
    descendMaps ns0 seen = some nsk →
    walkLoop ac first root (some ns0) namepath
        (seen.map Access.prop ++ Access.computed :: rest)
      = if ac then []
        else [Diagnostic.computedRef
              (if seen = [] ∧ first = true then some root else none)] := by
  intro seen
  induction seen with
  | nil =>
      intro first ns0 nsk namepath rest hd
      cases first <;> simp [walkLoop]
  | cons p ps ih =>
      intro first ns0 nsk namepath rest hd
      unfold descendMaps at hd
      cases hg : ns0.get p with
      | none => rw [hg] at hd; simp at hd
      | some o =>
          cases o with
          | none => rw [hg] at hd; simp at hd
          | some mid =>
              rw [hg] at hd
              have hhas := ExportMap.has_of_get hg
              simp only [List.map_cons, List.cons_append]
              rw [walkLoop]
              simp only [hhas, if_true, hg]
              rw [ih false mid nsk (namepath ++ [p]) rest hd]
              simp

end NamespaceRule

namespace NamespaceRule

/-- C3: for a member expression whose object identifier has a Binding Table
entry and passes the module-scope check, if its parent is an assignment
expression with the member expression as left-hand side, the
illegal-assignment diagnostic is emitted — with no assumption on whether
the accessed member exists in the namespace. -/
theorem C3_assignment_always_reported
    (ac : Bool) (namespaces : NsMap) (scope : String → String)
    (c : MemberChain) (ns : ExportMap)
    (hbind : nsLookup namespaces c.root = some ns)
    (hscope : scope c.root = "module")
    (hassign : c.parentIsAssignLHS = true) :
    Diagnostic.assignment c.root ∈ MemberExpression ac namespaces scope c := by
  simp [MemberExpression, hbind, hscope, hassign]

/-- C3 witness: instantiation at a namespace that does contain other
members, with the accessed member (`zz`) missing. -/
theorem C3_assignment_always_reported_witness :
    Diagnostic.assignment "ns"
      ∈ MemberExpression false rootTable moduleScope ⟨"ns", [Access.prop "zz"], true⟩ :=
  C3_assignment_always_reported false rootTable moduleScope
    ⟨"ns", [Access.prop "zz"], true⟩ midMap rfl rfl rfl

/-- C5: during chain walking and during destructuring recursion, a name the
current Export Map `has` but whose `get` yields `null` stops that chain or
pattern branch silently, with no diagnostic; whereas a name that is absent
produces the not-found diagnostic. -/
theorem C5_null_export_stops_silently (ns : ExportMap) (nm : String)
    (hhas : ns.has nm = true) (hnull : ns.get nm = none) :
    (∀ (ac first : Bool) (root : String) (namepath : List String) (rest : List Access),
        walkLoop ac first root (some ns) namepath (Access.prop nm :: rest) = [])
    ∧ (∀ (pat : Pattern) (path : List String),
        testProp (Property.keyed (PropKey.ident nm) pat) ns path = [])
    ∧ ∀ (ns2 : ExportMap), ns2.has nm = false →
        (∀ (ac first : Bool) (root : String) (namepath : List String) (rest : List Access),
            walkLoop ac first root (some ns2) namepath (Access.prop nm :: rest)
              = [Diagnostic.notFound nm namepath])
        ∧ ∀ (pat : Pattern) (path : List String),
            testProp (Property.keyed (PropKey.ident nm) pat) ns2 path
              = [Diagnostic.notFound nm path] := by
  refine ⟨?_, ?_, ?_⟩
  · intro ac first root namepath rest
    simp [walkLoop, hhas, hnull]
  · intro pat path
    simp [testProp, hhas, hnull]
  · intro ns2 h2
    constructor
    · intro ac first root namepath rest
      simp [walkLoop, h2]
    · intro pat path
      simp [testProp, h2]

/-- C5 witness: `midMap` has `amb` with a `null` resolved value (silent
stop on both walkers), while `innerMap` lacks `amb` (not-found on both). -/
theorem C5_null_export_stops_silently_witness :
    walkLoop false true "ns" (some midMap) ["ns"] [Access.prop "amb"] = []
    ∧ testProp (Property.keyed (PropKey.ident "amb") Pattern.otherPattern) midMap ["ns"] = []
    ∧ walkLoop false true "ns" (some innerMap) ["ns"] [Access.prop "amb"]
        = [Diagnostic.notFound "amb" ["ns"]]
    ∧ testProp (Property.keyed (PropKey.ident "amb") Pattern.otherPattern) innerMap ["ns"]
        = [Diagnostic.notFound "amb" ["ns"]] := by
  have h := C5_null_export_stops_silently midMap "amb" rfl rfl
  have h2 := h.2.2 innerMap rfl
  exact ⟨h.1 false true "ns" ["ns"] [], h.2.1 Pattern.otherPattern ["ns"],
    h2.1 false true "ns" ["ns"] [], h2.2 Pattern.otherPattern ["ns"]⟩

/-- C8: a dereference of a local name that has a Binding Table entry but
whose declaring scope is not `module` is skipped entirely: neither the
member-expression walker nor the destructuring walker emits anything. -/
theorem C8_shadowed_scope_suppresses
    (namespaces : NsMap) (scope : String → String) (nm : String) (ns : ExportMap)
    (hbind : nsLookup namespaces nm = some ns)
    (hscope : scope nm ≠ "module") :
    (∀ (ac : Bool) (accesses : List Access) (flag : Bool),
        MemberExpression ac namespaces scope ⟨nm, accesses, flag⟩ = [])
    ∧ ∀ (id : Pattern),
        VariableDeclarator namespaces scope id (some (InitExpr.ident nm)) = [] := by
  constructor
  · intro ac accesses flag
    simp [MemberExpression, hbind, hscope]
  · intro id
    simp [VariableDeclarator, hbind, hscope]

/-- C8 witness: under a scope oracle answering `function`, a bound name
with a missing member and a destructuring of a missing key both stay
silent. -/
theorem C8_shadowed_scope_suppresses_witness :
    MemberExpression false rootTable functionScope ⟨"ns", [Access.prop "zz"], true⟩ = []
    ∧ VariableDeclarator rootTable functionScope
        (Pattern.objectPattern [Property.keyed (PropKey.ident "zz") Pattern.otherPattern])
        (some (InitExpr.ident "ns")) = [] := by
  have h := C8_shadowed_scope_suppresses rootTable functionScope "ns" midMap rfl
    (by simp [functionScope])
  exact ⟨h.1 false [Access.prop "zz"] true,
    h.2 (Pattern.objectPattern [Property.keyed (PropKey.ident "zz") Pattern.otherPattern])⟩

/-- C9: the JSX member-access validator takes no scope query at all: with a
Binding Table entry whose namespace lacks the member, it reports not-found
even under a scope oracle for which the member-expression validator (which
does consult the oracle) stays silent on the same one-hop access. -/
theorem C9_jsx_ignores_scope
    (namespaces : NsMap) (scope : String → String) (objN propN : String) (ns : ExportMap)
    (hbind : nsLookup namespaces objN = some ns)
    (hmiss : ns.has propN = false)
    (hscope : scope objN ≠ "module") :
    JSXMemberExpression namespaces objN propN = [Diagnostic.notFound propN [objN]]
    ∧ ∀ (ac flag : Bool),
        MemberExpression ac namespaces scope ⟨objN, [Access.prop propN], flag⟩ = [] := by
  constructor
  · simp [JSXMemberExpression, hbind, hmiss]
  · intro ac flag
    simp [MemberExpression, hbind, hscope]

/-- C9 witness: `Ns.zz` as a JSX tag reports not-found under the
`function`-scope oracle while the member-expression form stays silent. -/
theorem C9_jsx_ignores_scope_witness :
    JSXMemberExpression rootTable "ns" "zz" = [Diagnostic.notFound "zz" ["ns"]]
    ∧ MemberExpression false rootTable functionScope ⟨"ns", [Access.prop "zz"], false⟩ = [] := by
  have h := C9_jsx_ignores_scope rootTable functionScope "ns" "zz" midMap rfl rfl
    (by simp [functionScope])
  exact ⟨h.1, h.2 false false⟩

/-- C10: the illegal-assignment report does not terminate the walk: for
`ns.x = v` with `x` absent from the bound namespace, both the assignment
diagnostic and the not-found diagnostic are emitted, in that order. -/
theorem C10_assignment_then_not_found
    (ac : Bool) (namespaces : NsMap) (scope : String → String)
    (root x : String) (ns : ExportMap)
    (hbind : nsLookup namespaces root = some ns)
    (hscope : scope root = "module")
    (hmiss : ns.has x = false) :
    MemberExpression ac namespaces scope ⟨root, [Access.prop x], true⟩
      = [Diagnostic.assignment root, Diagnostic.notFound x [root]] := by
  simp [MemberExpression, hbind, hscope, walkLoop, hmiss]

/-- C10 witness: `ns.zz = v` on the sample table yields exactly the two
diagnostics. -/
theorem C10_assignment_then_not_found_witness :
    MemberExpression false rootTable moduleScope ⟨"ns", [Access.prop "zz"], true⟩
      = [Diagnostic.assignment "ns", Diagnostic.notFound "zz" ["ns"]] :=
  C10_assignment_then_not_found false rootTable moduleScope "ns" "zz" midMap rfl rfl rfl

end NamespaceRule

namespace NamespaceRule

/-- C1: for a member-access chain rooted at a bound identifier passing the
scope check, when the first `seen.length` segments resolve to nested
Export Maps (`descendMaps`) and the next segment is absent, exactly one
not-found diagnostic is emitted for the chain — whatever accesses follow
the missing segment — carrying the accumulated namepath
`c.root :: seen` of length `seen.length + 1`, whose rendered message says
`deeply` exactly when that namepath is longer than 1. -/
theorem C1_first_missing_segment
    (ac : Bool) (namespaces : NsMap) (scope : String → String)
    (c : MemberChain) (ns0 nsk : ExportMap) (seen : List String)
    (missing : String) (rest : List Access)
    (hbind : nsLookup namespaces c.root = some ns0)
    (hscope : scope c.root = "module")
    (hacc : c.accesses = seen.map Access.prop ++ Access.prop missing :: rest)
    (hdesc : descendMaps ns0 seen = some nsk)
    (hmiss : nsk.has missing = false) :
    (MemberExpression ac namespaces scope c).filter Diagnostic.isNotFound
        = [Diagnostic.notFound missing (c.root :: seen)]
    ∧ (c.root :: seen).length = seen.length + 1
    ∧ (seen ≠ [] → makeMessage missing (c.root :: seen)
        = "\x27" ++ missing ++ "\x27 not found in " ++ "deeply "
          ++ "imported namespace \x27"
          ++ String.intercalate "." (c.root :: seen) ++ "\x27.")
    ∧ (seen = [] → makeMessage missing (c.root :: seen)
        = "\x27" ++ missing ++ "\x27 not found in "
          ++ "imported namespace \x27"
          ++ String.intercalate "." (c.root :: seen) ++ "\x27.") := by
  refine ⟨?_, by simp, ?_, ?_⟩
  · have hw := walk_notFound ac c.root seen true ns0 nsk [c.root] missing rest hdesc hmiss
    simp only [MemberExpression, hbind, hscope, if_true, hacc, hw]
    cases c.parentIsAssignLHS <;>
      simp [Diagnostic.isNotFound, List.filter]
  · intro hne
    have hlen : 1 < (c.root :: seen).length := by
      have := List.length_pos.mpr hne
      simp only [List.length_cons]
      omega
    simp only [makeMessage, if_pos hlen]
  · intro he
    subst he
    simp [makeMessage]

/-- C1 witness: the chain `ns.a.zz.w` on the sample table, where `a`
resolves to `innerMap` and `zz` is absent from it. -/
theorem C1_first_missing_segment_witness :
    (MemberExpression false rootTable moduleScope
        ⟨"ns", [Access.prop "a", Access.prop "zz", Access.prop "w"], false⟩).filter
        Diagnostic.isNotFound
      = [Diagnostic.notFound "zz" ["ns", "a"]]
    ∧ (["ns", "a"] : List String).length = (["a"] : List String).length + 1
    ∧ ((["a"] : List String) ≠ [] → makeMessage "zz" ["ns", "a"]
        = "\x27" ++ "zz" ++ "\x27 not found in " ++ "deeply "
          ++ "imported namespace \x27"
          ++ String.intercalate "." ["ns", "a"] ++ "\x27.")
    ∧ ((["a"] : List String) = [] → makeMessage "zz" ["ns", "a"]
        = "\x27" ++ "zz" ++ "\x27 not found in "
          ++ "imported namespace \x27"
          ++ String.intercalate "." ["ns", "a"] ++ "\x27.") :=
  C1_first_missing_segment false rootTable moduleScope
    ⟨"ns", [Access.prop "a", Access.prop "zz", Access.prop "w"], false⟩
    midMap innerMap ["a"] "zz" [Access.prop "w"] rfl rfl rfl rfl rfl

/-- C2: an import declaration whose resolved Export Map carries errors has
those errors forwarded as diagnostics and registers nothing; and, in
general, a statement can only change a Binding Table lookup when it is
an import declaration whose Export Map resolved with zero errors. -/
theorem C2_errors_block_bindings
    (resolve : String → Option ExportMap) (namespaces : NsMap)
    (d : ImportDecl) (imports : ExportMap)
    (hspec : d.specifiers ≠ [])
    (hres : resolve d.source = some imports)
    (herr : imports.errors.length > 0) :
    processBodyStatement resolve namespaces (Statement.importDecl d)
        = (namespaces, imports.errors.map Diagnostic.resolveError)
    ∧ ∀ (st : Statement) (nm : String),
        nsLookup (processBodyStatement resolve namespaces st).1 nm
            ≠ nsLookup namespaces nm →
        ∃ (d2 : ImportDecl) (imports2 : ExportMap),
          st = Statement.importDecl d2 ∧ resolve d2.source = some imports2
            ∧ imports2.errors.length = 0 := by
  constructor
  · have h0 : ¬ d.specifiers.length = 0 := by
      simpa [List.length_eq_zero] using hspec
    simp [processBodyStatement, h0, hres, herr]
  · intro st nm hne
    cases st with
    | other => simp [processBodyStatement] at hne
    | importDecl d2 =>
        by_cases h0 : d2.specifiers.length = 0
        · simp [processBodyStatement, h0] at hne
        · cases hr2 : resolve d2.source with
          | none => simp [processBodyStatement, h0, hr2] at hne
          | some imp2 =>
              by_cases he2 : imp2.errors.length > 0
              · simp [processBodyStatement, h0, hr2, he2] at hne
              · exact ⟨d2, imp2, rfl, hr2, by omega⟩

/-- C2 witness: a wildcard import of a module whose map reports one error
forwards the error and leaves the empty Binding Table unchanged. -/
theorem C2_errors_block_bindings_witness :
    processBodyStatement (fun _ => some (ExportMap.mk ["boom"] [])) []
        (Statement.importDecl ⟨"m", [Specifier.namespaceSpec "n"]⟩)
      = ([], [Diagnostic.resolveError "boom"]) :=
  (C2_errors_block_bindings (fun _ => some (ExportMap.mk ["boom"] [])) []
    ⟨"m", [Specifier.namespaceSpec "n"]⟩ (ExportMap.mk ["boom"] [])
    (by simp) rfl (by decide)).1

/-- C4: a computed access after `seen.length` resolved non-computed hops:
with `allowComputed = false` exactly one unvalidatable-computed-reference
diagnostic is emitted (interpolating the root name only when the computed
hop is the first one) and nothing deeper is validated; with
`allowComputed = true` no diagnostic at all is emitted, the walk also
stopping there — in both cases whatever accesses follow are ignored. -/
theorem C4_computed_access
    (ac : Bool) (namespaces : NsMap) (scope : String → String)
    (c : MemberChain) (ns0 nsk : ExportMap) (seen : List String)
    (rest : List Access)
    (hbind : nsLookup namespaces c.root = some ns0)
    (hscope : scope c.root = "module")
    (hflag : c.parentIsAssignLHS = false)
    (hacc : c.accesses = seen.map Access.prop ++ Access.computed :: rest)
    (hdesc : descendMaps ns0 seen = some nsk) :
    (ac = false → MemberExpression ac namespaces scope c
        = [Diagnostic.computedRef (if seen = [] then some c.root else none)])
    ∧ (ac = true → MemberExpression ac namespaces scope c = []) := by
  have hw := walk_computed ac c.root seen true ns0 nsk [c.root] rest hdesc
  constructor <;> intro hac <;> subst hac <;>
    simp only [MemberExpression, hbind, hscope, if_true, hflag, hacc, hw] <;>
    simp

/-- C4 witness: `ns.a[e]` (computed hop after one resolved hop) reports one
computed-reference diagnostic when `allowComputed` is off and nothing when
it is on. -/
theorem C4_computed_access_witness :
    MemberExpression false rootTable moduleScope
        ⟨"ns", [Access.prop "a", Access.computed], false⟩
      = [Diagnostic.computedRef none]
    ∧ MemberExpression true rootTable moduleScope
        ⟨"ns", [Access.prop "a", Access.computed], false⟩ = [] := by
  have h1 := (C4_computed_access false rootTable moduleScope
    ⟨"ns", [Access.prop "a", Access.computed], false⟩
    midMap innerMap ["a"] [] rfl rfl rfl rfl rfl).1 rfl
  have h2 := (C4_computed_access true rootTable moduleScope
    ⟨"ns", [Access.prop "a", Access.computed], false⟩
    midMap innerMap ["a"] [] rfl rfl rfl rfl rfl).2 rfl
  refine ⟨?_, h2⟩
  simpa using h1

/-- C6: in the destructuring walker a key the current namespace lacks
yields one not-found diagnostic with the accumulated path and the sibling
properties are still validated (first conjunct); hence
`{ a: { b } } = ns` with `a` present (as a nested namespace) but `b`
missing yields exactly the diagnostic for namepath `ns.a` failing at `b`,
while with `a` itself missing only the diagnostic for `a` is produced and
`b` is never consulted. -/
theorem C6_destructuring_missing_key
    (namespaces : NsMap) (scope : String → String)
    (root a b : String) (ns nsA : ExportMap)
    (hbind : nsLookup namespaces root = some ns)
    (hscope : scope root = "module") :
    (∀ (k : String) (sub : Pattern) (siblings : List Property)
        (path : List String) (m : ExportMap), m.has k = false →
        testProps (Property.keyed (PropKey.ident k) sub :: siblings) m path
          = Diagnostic.notFound k path :: testProps siblings m path)
    ∧ (ns.get a = some (some nsA) → nsA.has b = false →
        VariableDeclarator namespaces scope
            (Pattern.objectPattern [Property.keyed (PropKey.ident a)
              (Pattern.objectPattern
                [Property.keyed (PropKey.ident b) Pattern.otherPattern])])
            (some (InitExpr.ident root))
          = [Diagnostic.notFound b [root, a]])
    ∧ (ns.has a = false →
        VariableDeclarator namespaces scope
            (Pattern.objectPattern [Property.keyed (PropKey.ident a)
              (Pattern.objectPattern
                [Property.keyed (PropKey.ident b) Pattern.otherPattern])])
            (some (InitExpr.ident root))
          = [Diagnostic.notFound a [root]]) := by
  refine ⟨?_, ?_, ?_⟩
  · intro k sub siblings path m hk
    simp [testProps, testProp, hk]
  · intro hget hmb
    have hhasa := ExportMap.has_of_get hget
    simp [VariableDeclarator, hbind, hscope, testKey, testProps, testProp,
      hhasa, hget, hmb]
  · intro hmissa
    simp [VariableDeclarator, hbind, hscope, testKey, testProps, testProp, hmissa]

/-- C6 witness: sibling continuation past a missing key `q`, the
`{ a: { zz } } = ns` case and the `{ q: { b } } = ns` case on the sample
table. -/
theorem C6_destructuring_missing_key_witness :
    testProps (Property.keyed (PropKey.ident "q") Pattern.otherPattern
        :: [Property.keyed (PropKey.ident "a") Pattern.otherPattern]) midMap ["ns"]
      = Diagnostic.notFound "q" ["ns"]
        :: testProps [Property.keyed (PropKey.ident "a") Pattern.otherPattern] midMap ["ns"]
    ∧ VariableDeclarator rootTable moduleScope
        (Pattern.objectPattern [Property.keyed (PropKey.ident "a")
          (Pattern.objectPattern
            [Property.keyed (PropKey.ident "zz") Pattern.otherPattern])])
        (some (InitExpr.ident "ns"))
      = [Diagnostic.notFound "zz" ["ns", "a"]]
    ∧ VariableDeclarator rootTable moduleScope
        (Pattern.objectPattern [Property.keyed (PropKey.ident "q")
          (Pattern.objectPattern
            [Property.keyed (PropKey.ident "b") Pattern.otherPattern])])
        (some (InitExpr.ident "ns"))
      = [Diagnostic.notFound "q" ["ns"]] := by
  have h := C6_destructuring_missing_key rootTable moduleScope "ns" "a" "zz"
    midMap innerMap rfl rfl
  have h' := C6_destructuring_missing_key rootTable moduleScope "ns" "q" "b"
    midMap innerMap rfl rfl
  exact ⟨h.1 "q" Pattern.otherPattern
      [Property.keyed (PropKey.ident "a") Pattern.otherPattern] ["ns"] midMap rfl,
    h.2.1 rfl rfl, h'.2.2 rfl⟩

/-- C7: a wildcard import whose error-free Export Map has size zero emits
exactly one empty-namespace diagnostic at the specifier, yet still
registers the local name, mapped to that Export Map. -/
theorem C7_empty_wildcard_still_registered
    (resolve : String → Option ExportMap) (namespaces : NsMap)
    (d : ImportDecl) (loc : String) (imports : ExportMap)
    (hspec : d.specifiers = [Specifier.namespaceSpec loc])
    (hres : resolve d.source = some imports)
    (herr : imports.errors = [])
    (hsize : imports.size = 0) :
    processBodyStatement resolve namespaces (Statement.importDecl d)
        = (nsSet namespaces loc imports, [Diagnostic.emptyNamespace loc d.source])
    ∧ nsLookup (nsSet namespaces loc imports) loc = some imports := by
  constructor
  · simp [processBodyStatement, hspec, hres, herr, processSpecifier, hsize]
  · exact nsLookup_nsSet_self namespaces loc imports

/-- C7 witness: wildcard-importing a module with an empty, error-free map
reports once and binds `n` to the map. -/
theorem C7_empty_wildcard_still_registered_witness :
    processBodyStatement (fun _ => some (ExportMap.mk [] [])) []
        (Statement.importDecl ⟨"m", [Specifier.namespaceSpec "n"]⟩)
      = (nsSet [] "n" (ExportMap.mk [] []), [Diagnostic.emptyNamespace "n" "m"])
    ∧ nsLookup (nsSet [] "n" (ExportMap.mk [] [])) "n" = some (ExportMap.mk [] []) :=
  C7_empty_wildcard_still_registered (fun _ => some (ExportMap.mk [] [])) []
    ⟨"m", [Specifier.namespaceSpec "n"]⟩ "n" (ExportMap.mk [] []) rfl rfl rfl rfl

end NamespaceRule
